import Mathlib

/-!
Verification development for the `taxonomy` Python library (onecodex/taxonomy,
pure-Python networkx implementation).

Shallow embedding notes:
* Python values that can be either strings or ints (the tax ids) are modelled by `PyVal`.
* The `networkx.DiGraph` objects built by the library are modelled by `DiGraph`:
  an ordered association list of nodes (id, attribute dict) plus an ordered edge list.
  `add_node`/`add_edge` follow networkx 1.x semantics as used by the code:
  `add_node(n, attr_dict=d)` sets the node's attributes to `d`, re-adding a node
  overwrites its attributes, `add_edge` inserts missing endpoints with an empty
  attribute dict and does not duplicate edges.
* `networkx.dfs_preorder_nodes` / `dfs_postorder_nodes` are modelled by fuel-based
  depth-first searches following the successor (outgoing-edge) lists in order.
  All call sites in the library first check that the start node is present.
* Fallible Python code (KeyError, IndexError, ValueError) is modelled with `Except String`.
* File reading is modelled by passing the list of lines of the file; string helpers
  (`split`, `strip`, `rstrip`, `int(...)`) are re-implemented structurally so that
  every definition evaluates inside `decide`/`rfl`.
-/

/-- A Python scalar that is either a string or an int: the type of tax ids as the
library actually stores them (`formats.py` keeps them as strings, `taxonomy.py`
coerces them with `int(...)`). -/
inductive PyVal where
  | pyStr (s : String)
  | pyInt (n : Int)
deriving DecidableEq

/-- Python `str()` of a `PyVal`, used when formatting error messages. -/
def pyToString : PyVal → String
  | .pyStr s => s
  | .pyInt n => toString n

instance instToStringPyVal : ToString PyVal := ⟨pyToString⟩

/-- The attribute dict the parsers attach to a node:
`{'name': ..., 'rank': ..., 'hidden': ...}`. -/
structure NodeData where
  name : String
  rank : String
  hidden : Bool
deriving DecidableEq

/-- Model of a `networkx.DiGraph` as used by the library: ordered node list with
optional attribute dict (`none` models the empty dict `{}` that `add_edge` gives
to endpoints it inserts), plus an ordered edge list.  Edges point child → parent. -/
structure DiGraph (α : Type) where
  nodes : List (α × Option NodeData)
  edges : List (α × α)
deriving DecidableEq

def DiGraph.empty {α : Type} : DiGraph α := ⟨[], []⟩

/-- `G.has_node(v)`. -/
def DiGraph.hasNode {α : Type} [DecidableEq α] (g : DiGraph α) (v : α) : Bool :=
  (g.nodes.find? (fun p => decide (p.1 = v))).isSome

/-- The ordered successor list of `v` (networkx `G.successors` / adjacency order):
the targets of the outgoing edges of `v`. -/
def DiGraph.succs {α : Type} [DecidableEq α] (g : DiGraph α) (v : α) : List α :=
  (g.edges.filter (fun e => decide (e.1 = v))).map (fun e => e.2)

/-- `G.add_node(v, attr_dict=d)` (networkx 1.x): insert `v` with attributes `d`,
or overwrite the attributes if `v` is already present. -/
def DiGraph.addNode {α : Type} [DecidableEq α] (g : DiGraph α) (v : α) (d : NodeData) :
    DiGraph α :=
  if g.hasNode v then
    { g with nodes := g.nodes.map (fun p => if p.1 = v then (v, some d) else p) }
  else
    { g with nodes := g.nodes ++ [(v, some d)] }

/-- Insert `v` with an empty attribute dict if absent (what `add_edge` does to
endpoints that are not yet nodes). -/
def DiGraph.ensureNode {α : Type} [DecidableEq α] (g : DiGraph α) (v : α) : DiGraph α :=
  if g.hasNode v then g else { g with nodes := g.nodes ++ [(v, none)] }

/-- `G.add_edge(u, v)`: insert missing endpoints, then add the edge unless it is
already present. -/
def DiGraph.addEdge {α : Type} [DecidableEq α] (g : DiGraph α) (u v : α) : DiGraph α :=
  let g1 := (g.ensureNode u).ensureNode v
  if (g1.edges.contains (u, v)) then g1 else { g1 with edges := g1.edges ++ [(u, v)] }

/-- `G.node.get(v, {}).get('rank')`: `none` models Python `None`. -/
def DiGraph.getRank {α : Type} [DecidableEq α] (g : DiGraph α) (v : α) : Option String :=
  match g.nodes.find? (fun p => decide (p.1 = v)) with
  | some (_, some d) => some d.rank
  | _ => none

/-- `G.node.get(v, {}).get('name')`. -/
def DiGraph.getName {α : Type} [DecidableEq α] (g : DiGraph α) (v : α) : Option String :=
  match g.nodes.find? (fun p => decide (p.1 = v)) with
  | some (_, some d) => some d.name
  | _ => none

/-- `G.node.get(v, {}).get('hidden')`. -/
def DiGraph.getHidden {α : Type} [DecidableEq α] (g : DiGraph α) (v : α) : Option Bool :=
  match g.nodes.find? (fun p => decide (p.1 = v)) with
  | some (_, some d) => some d.hidden
  | _ => none

/-- `G.nodes()`: the ordered list of node ids. -/
def DiGraph.nodeIds {α : Type} (g : DiGraph α) : List α := g.nodes.map (fun p => p.1)

/-- Fuel-based preorder DFS (model of `networkx.dfs_preorder_nodes`): emit a node
when it is first visited, then explore its successors in adjacency order,
threading the visited set.  Returns the emitted list and the final visited set. -/
def dfsPreAux {α : Type} [DecidableEq α] (g : DiGraph α) :
    Nat → α → List α → List α × List α
  | 0, _, vis => ([], vis)
  | Nat.succ n, v, vis =>
    if v ∈ vis then ([], vis)
    else
      (g.succs v).foldl
        (fun acc w =>
          let out := dfsPreAux g n w acc.2
          (acc.1 ++ out.1, out.2))
        ([v], v :: vis)

/-- Fuel-based postorder DFS (model of `networkx.dfs_postorder_nodes`): explore the
successors first, emit the node afterwards. -/
def dfsPostAux {α : Type} [DecidableEq α] (g : DiGraph α) :
    Nat → α → List α → List α × List α
  | 0, _, vis => ([], vis)
  | Nat.succ n, v, vis =>
    if v ∈ vis then ([], vis)
    else
      let r := (g.succs v).foldl
        (fun acc w =>
          let out := dfsPostAux g n w acc.2
          (acc.1 ++ out.1, out.2))
        ([], v :: vis)
      (r.1 ++ [v], r.2)

/-- Enough fuel to finish any DFS in `g`: the recursion depth is bounded by one
plus the number of distinct reachable vertices, each of which is the start node
or the target of some edge. -/
def dfsFuel {α : Type} (g : DiGraph α) : Nat := g.nodes.length + g.edges.length + 1

def dfs_preorder_nodes {α : Type} [DecidableEq α] (g : DiGraph α) (v : α) : List α :=
  (dfsPreAux g (dfsFuel g) v []).1

def dfs_postorder_nodes {α : Type} [DecidableEq α] (g : DiGraph α) (v : α) : List α :=
  (dfsPostAux g (dfsFuel g) v []).1

/-- Spec-side lineage relation: `RootPath g x c` says `c` is the chain
`[x, parent(x), parent(parent(x)), …, root]` obtained by following the unique
outgoing (child → parent) edge of each node until a node with no outgoing edge
(the root) is reached.  This is the tree-shape premise under which the spec's
traversal claims are stated. -/
inductive RootPath {α : Type} [DecidableEq α] (g : DiGraph α) : α → List α → Prop where
  | leaf (x : α) : g.succs x = [] → RootPath g x [x]
  | step (x p : α) (c : List α) : g.succs x = [p] → RootPath g p c → RootPath g x (x :: c)

/-- Longest common leading segment of two lists (the value tracked by the
`itertools.izip` loop of `lowest_common_ancestor_double`). -/
def commonPref {α : Type} [DecidableEq α] : List α → List α → List α
  | a :: as, b :: bs => if a = b then a :: commonPref as bs else []
  | _, _ => []

/-- `olast l acc`: the last element of `l` if it exists, else `acc` (the value of
the loop variable `parent_id` after scanning a common segment `l`). -/
def olast {α : Type} : List α → Option α → Option α
  | [], acc => acc
  | a :: as, _ => olast as (some a)

/-- The `for ptax_id_1, ptax_id_2 in itertools.izip(...)` loop of
`lowest_common_ancestor_double`: walk both lists in lockstep, remembering the
last position where they agreed; stop at the first disagreement. -/
def lcaLoop {α : Type} [DecidableEq α] : List α → List α → Option α → Option α
  | a :: as, b :: bs, acc => if a ≠ b then acc else lcaLoop as bs (some a)
  | _, _, acc => acc

/-- Python `','.join(...)`. -/
def joinWith : String → List String → String
  | _, [] => ""
  | _, [s] => s
  | sep, s :: rest => s ++ sep ++ joinWith sep rest

/-- The `Taxonomy` object of `taxonomy/core.py` (the metadata dict is not modelled:
no claim concerns it). -/
structure Taxonomy (α : Type) where
  tax_graph : DiGraph α
deriving DecidableEq

/-- `Taxonomy.parents`: KeyError when the id is unknown, otherwise
`list(networkx.dfs_preorder_nodes(G, tax_id))[1:]`. -/
def Taxonomy.parents {α : Type} [DecidableEq α] [ToString α] (t : Taxonomy α) (x : α) :
    Except String (List α) :=
  if t.tax_graph.hasNode x then
    .ok ((dfs_preorder_nodes t.tax_graph x).drop 1)
  else
    .error ("Tax ID " ++ toString x ++ " not in taxonomy")

/-- `Taxonomy.parent_at_rank`: return `tax_id` itself if its rank matches, else the
first element of `parents(tax_id)` whose rank matches, else `None`. -/
def Taxonomy.parent_at_rank {α : Type} [DecidableEq α] [ToString α] (t : Taxonomy α)
    (x : α) (r : String) : Except String (Option α) :=
  if t.tax_graph.getRank x = some r then .ok (some x)
  else
    match t.parents x with
    | .error e => .error e
    | .ok ps => .ok (ps.find? (fun p => decide (t.tax_graph.getRank p = some r)))

/-- `Taxonomy.lowest_common_ancestor_double`: zip the postorder DFS chains of the
two nodes and keep the last agreeing element. -/
def Taxonomy.lowest_common_ancestor_double {α : Type} [DecidableEq α] (t : Taxonomy α)
    (x y : α) : Option α :=
  lcaLoop (dfs_postorder_nodes t.tax_graph x) (dfs_postorder_nodes t.tax_graph y) none

/-- Python `reduce(self.lowest_common_ancestor_double, tax_ids)` threading: when an
intermediate result is `None`, the next `dfs_postorder_nodes(G, None)` call raises
(`None` is not a node), modelled by the error branch. -/
def Taxonomy.lcaReduce {α : Type} [DecidableEq α] (t : Taxonomy α) :
    Option α → List α → Except String (Option α)
  | acc, [] => .ok acc
  | some a, y :: ys => t.lcaReduce (t.lowest_common_ancestor_double a y) ys
  | none, _ :: _ => .error "KeyError: None not in taxonomy"

/-- `Taxonomy.lowest_common_ancestor`: 0 ids → `None`; 1 id → that id (no presence
check); otherwise KeyError if any id is absent, else the pairwise reduction. -/
def Taxonomy.lowest_common_ancestor {α : Type} [DecidableEq α] [ToString α]
    (t : Taxonomy α) (ids : List α) : Except String (Option α) :=
  match ids with
  | [] => .ok none
  | [x] => .ok (some x)
  | x :: rest =>
    if (x :: rest).all (fun i => t.tax_graph.hasNode i) then
      t.lcaReduce (some x) rest
    else
      .error ("Tax IDs " ++ joinWith "," ((x :: rest).map toString) ++ " not in taxonomy")

/-- Index of the last occurrence of `c` in `cs`, if any (Python `str.rfind`). -/
def lastIndexOf? (cs : List Char) (c : Char) : Option Nat :=
  cs.enum.foldl (fun acc p => if p.2 = c then some p.1 else acc) none

/-- The extension part of Python `os.path.splitext` (posix rules): the substring
from the last `'.'` after the last `'/'`, unless the basename up to that dot is
all dots. -/
def splitextExt (p : String) : String :=
  let cs := p.data
  let fnameIdx : Nat := match lastIndexOf? cs '/' with
    | some si => si + 1
    | none => 0
  match lastIndexOf? cs '.' with
  | none => ""
  | some d =>
    if fnameIdx ≤ d then
      if ((cs.drop fnameIdx).take (d - fnameIdx)).any (fun ch => decide (ch ≠ '.')) then
        String.mk (cs.drop d)
      else ""
    else ""

/-- The `gzip` module object is imported at the top of the file, so the
`if gzip:` test in `Taxonomy.save` is always true. -/
def gzipModuleImported : Bool := true

/-- The observable file effect of `Taxonomy.save` on a filepath argument: the single
path that is opened for writing, and whether the JSON is gzip-compressed. -/
structure SaveEffect where
  path : String
  gzipped : Bool
deriving DecidableEq

/-- The filepath branch of `Taxonomy.save(f, compress)`: `compress` is never read;
`if gzip:` always holds; a path without a `.gz` extension gets `.gz` appended and
the (single) output file is opened with `gzip.open`. -/
def Taxonomy.savePlan {α : Type} (_t : Taxonomy α) (f : String) (compress : Bool) :
    SaveEffect :=
  if gzipModuleImported then
    let f2 := if splitextExt f ≠ ".gz" then f ++ ".gz" else f
    { path := f2, gzipped := true }
  else
    { path := f, gzipped := false }

/-- Python `s.split(sep)` for a non-empty separator, over character lists.
`cur` is the reversed current field. -/
def pySplitAux (sep : List Char) : Nat → List Char → List Char → List (List Char)
  | _, [], cur => [cur.reverse]
  | 0, cs, cur => [cur.reverse ++ cs]
  | Nat.succ n, c :: rest, cur =>
    if sep.isPrefixOf (c :: rest) then
      cur.reverse :: pySplitAux sep n ((c :: rest).drop sep.length) []
    else
      pySplitAux sep n rest (c :: cur)

/-- Python `s.split(sep)` (non-empty `sep`). -/
def pySplit (s : String) (sep : String) : List String :=
  (pySplitAux sep.data (s.data.length + 1) s.data []).map String.mk

/-- Python `s.strip()` (whitespace on both ends). -/
def pyStrip (s : String) : String :=
  String.mk (((s.data.dropWhile Char.isWhitespace).reverse.dropWhile Char.isWhitespace).reverse)

/-- Python `s.rstrip("\t|")`: strip any trailing tab or pipe characters. -/
def rstripTabPipe (s : String) : String :=
  String.mk ((s.data.reverse.dropWhile (fun c => decide (c = '\t') || decide (c = '|'))).reverse)

/-- Digits-only part of Python `int(...)` on a non-empty digit string. -/
def digitsToNat : List Char → Option Nat
  | [] => none
  | cs =>
    cs.foldl
      (fun acc c =>
        match acc with
        | none => none
        | some n => if c.isDigit then some (n * 10 + (c.toNat - 48)) else none)
      (some 0)

/-- Python `int(s)` for an already-stripped string: optional sign then digits,
`none` models the `ValueError`. -/
def pyInt? (s : String) : Option Int :=
  match s.data with
  | '-' :: rest => (digitsToNat rest).map (fun n => -(n : Int))
  | '+' :: rest => (digitsToNat rest).map (fun n => (n : Int))
  | cs => (digitsToNat cs).map (fun n => (n : Int))

/-- Python dict assignment `d[k] = v` on an (insertion-ordered) dict. -/
def dictInsert {κ : Type} [DecidableEq κ] (d : List (κ × String)) (k : κ) (v : String) :
    List (κ × String) :=
  if (d.find? (fun p => decide (p.1 = k))).isSome then
    d.map (fun p => if p.1 = k then (k, v) else p)
  else
    d ++ [(k, v)]

/-- Python `d.get(k)`. -/
def dictGet? {κ : Type} [DecidableEq κ] (d : List (κ × String)) (k : κ) : Option String :=
  (d.find? (fun p => decide (p.1 = k))).map (fun p => p.2)

/-- One `names.dmp` line: `(tax_id, name_txt, name_type)` after
`line.strip().split("\t|\t")` and the per-field strips; `none` models the
IndexError on a line with too few fields. -/
def parseNamesLine? (line : String) : Option (String × String × String) :=
  let fs := pySplit (pyStrip line) "\t|\t"
  match fs.get? 0, fs.get? 1, fs.get? 3 with
  | some f0, some f1, some f3 => some (pyStrip f0, pyStrip f1, rstripTabPipe f3)
  | _, _, _ => none

/-- The fields `taxonomy_from_ncbi` extracts from one `nodes.dmp` line. -/
structure NodesRec where
  tax_id : String
  parent_tax_id : String
  rank : String
  hidden_raw : String
deriving DecidableEq

/-- One `nodes.dmp` line: `line.split("\t|\t")` (no leading strip) and fields
0, 1, 2, 10, each `.strip()`ed; `none` models the IndexError. -/
def parseNodesLine? (line : String) : Option NodesRec :=
  let fs := pySplit line "\t|\t"
  match fs.get? 0, fs.get? 1, fs.get? 2, fs.get? 10 with
  | some f0, some f1, some f2, some f10 =>
    some ⟨pyStrip f0, pyStrip f1, pyStrip f2, pyStrip f10⟩
  | _, _, _, _ => none

/-- One step of the `names.dmp` loop of `formats.taxonomy_from_ncbi`: record the
name only for `scientific name` records, later records overwriting earlier. -/
def namesStep (acc : Except String (List (String × String))) (line : String) :
    Except String (List (String × String)) :=
  match acc with
  | .error e => .error e
  | .ok d =>
    match parseNamesLine? line with
    | none => .error "IndexError: list index out of range"
    | some (tid, ntxt, ntype) =>
      .ok (if ntype = "scientific name" then dictInsert d tid ntxt else d)

/-- The `names.dmp` loop (over the lines remaining after the discarded header). -/
def buildNamesDict (lines : List String) : Except String (List (String × String)) :=
  lines.foldl namesStep (.ok [])

/-- The body of the `nodes.dmp` loop of `formats.taxonomy_from_ncbi` for one
record: add the node with its attribute dict (`bool(hidden)` is non-empty-string
truthiness), then skip the edge for a self-referential record, else add the
child → parent edge. -/
def processNodesRecord (nd : List (String × String)) (g : DiGraph PyVal) (r : NodesRec) :
    DiGraph PyVal :=
  let attrs : NodeData :=
    { name := (dictGet? nd r.tax_id).getD "No name found."
      rank := r.rank
      hidden := r.hidden_raw ≠ "" }
  let g1 := g.addNode (PyVal.pyStr r.tax_id) attrs
  if r.tax_id = r.parent_tax_id then g1
  else g1.addEdge (PyVal.pyStr r.tax_id) (PyVal.pyStr r.parent_tax_id)

/-- One step of the `nodes.dmp` loop of `formats.taxonomy_from_ncbi`. -/
def nodesStep (nd : List (String × String)) (acc : Except String (DiGraph PyVal))
    (line : String) : Except String (DiGraph PyVal) :=
  match acc with
  | .error e => .error e
  | .ok g =>
    match parseNodesLine? line with
    | none => .error "IndexError: list index out of range"
    | some r => .ok (processNodesRecord nd g r)

/-- The `nodes.dmp` loop of `formats.taxonomy_from_ncbi`. -/
def nodesFold (nd : List (String × String)) (acc : Except String (DiGraph PyVal))
    (lines : List String) : Except String (DiGraph PyVal) :=
  lines.foldl (nodesStep nd) acc

/-- `taxonomy.formats.taxonomy_from_ncbi`, over the lines of `names.dmp` and
`nodes.dmp` (`readline()` discards the first names line unconditionally; the
metadata dict is not modelled: no claim concerns it). -/
def taxonomy_from_ncbi (names_lines nodes_lines : List String) :
    Except String (Taxonomy PyVal) :=
  match buildNamesDict (names_lines.drop 1) with
  | .error e => .error e
  | .ok nd =>
    match nodesFold nd (.ok DiGraph.empty) nodes_lines with
    | .error e => .error e
    | .ok g => .ok ⟨g⟩

/-- The fields `Taxonomy.build_from_ncbi` (legacy `taxonomy/taxonomy.py`) extracts
from one `nodes.dmp` line: tax ids coerced with `int(...)`. -/
structure NodesRecInt where
  tax_id : Int
  parent_tax_id : Int
  rank : String
  hidden_raw : String
deriving DecidableEq

/-- One `nodes.dmp` line for `build_from_ncbi`: like `parseNodesLine?` but with
`int(line[0].strip())` and `int(line[1].strip())`; `none` also covers the
ValueError of a failed int conversion. -/
def parseNodesLineInt? (line : String) : Option NodesRecInt :=
  match parseNodesLine? line with
  | none => none
  | some r =>
    match pyInt? r.tax_id, pyInt? r.parent_tax_id with
    | some a, some b => some ⟨a, b, r.rank, r.hidden_raw⟩
    | _, _ => none

/-- One step of the `names.dmp` loop of `Taxonomy.build_from_ncbi`
(dict keyed by `int(tax_id)`). -/
def namesStepInt (acc : Except String (List (Int × String))) (line : String) :
    Except String (List (Int × String)) :=
  match acc with
  | .error e => .error e
  | .ok d =>
    match parseNamesLine? line with
    | none => .error "IndexError: list index out of range"
    | some (tid, ntxt, ntype) =>
      match pyInt? tid with
      | none => .error "ValueError: invalid literal for int"
      | some itid =>
        .ok (if ntype = "scientific name" then dictInsert d itid ntxt else d)

/-- The `names.dmp` loop of `Taxonomy.build_from_ncbi`. -/
def buildNamesDictInt (lines : List String) : Except String (List (Int × String)) :=
  lines.foldl namesStepInt (.ok [])

/-- The body of the `nodes.dmp` loop of `Taxonomy.build_from_ncbi` for one record:
identical attribute handling, but the node id is the *int* tax id and the
child → parent edge is added unconditionally (self-referential records included). -/
def processNodesRecordInt (nd : List (Int × String)) (g : DiGraph PyVal)
    (r : NodesRecInt) : DiGraph PyVal :=
  let attrs : NodeData :=
    { name := (dictGet? nd r.tax_id).getD "No name found."
      rank := r.rank
      hidden := r.hidden_raw ≠ "" }
  let g1 := g.addNode (PyVal.pyInt r.tax_id) attrs
  g1.addEdge (PyVal.pyInt r.tax_id) (PyVal.pyInt r.parent_tax_id)

/-- One step of the `nodes.dmp` loop of `Taxonomy.build_from_ncbi`. -/
def nodesStepInt (nd : List (Int × String)) (acc : Except String (DiGraph PyVal))
    (line : String) : Except String (DiGraph PyVal) :=
  match acc with
  | .error e => .error e
  | .ok g =>
    match parseNodesLineInt? line with
    | none => .error "IndexError or ValueError"
    | some r => .ok (processNodesRecordInt nd g r)

/-- `taxonomy.taxonomy.Taxonomy.build_from_ncbi` with the default `directed=True`,
over the lines of the two files (metadata not modelled; the `directed=False`
variant is not modelled: no claim concerns it). -/
def build_from_ncbi (names_lines nodes_lines : List String) :
    Except String (Taxonomy PyVal) :=
  match buildNamesDictInt (names_lines.drop 1) with
  | .error e => .error e
  | .ok nd =>
    match nodes_lines.foldl (nodesStepInt nd) (.ok DiGraph.empty) with
    | .error e => .error e
    | .ok g => .ok ⟨g⟩

/-! ### Observation helpers for parser results -/

/-- Edge list of a parse result (empty on error). -/
def edgesOfE : Except String (Taxonomy PyVal) → List (PyVal × PyVal)
  | .ok t => t.tax_graph.edges
  | .error _ => []

/-- Node-id list of a parse result (empty on error). -/
def nodeIdsOfE : Except String (Taxonomy PyVal) → List PyVal
  | .ok t => t.tax_graph.nodeIds
  | .error _ => []

/-- Whether a parse succeeded. -/
def isOkE : Except String (Taxonomy PyVal) → Bool
  | .ok _ => true
  | .error _ => false

/-- The parsed taxonomy, or an empty one on error. -/
def taxOfE : Except String (Taxonomy PyVal) → Taxonomy PyVal
  | .ok t => t
  | .error _ => ⟨DiGraph.empty⟩

/-- The stored `hidden` attribute of a node of a parse result. -/
def getHiddenOfE (r : Except String (Taxonomy PyVal)) (v : PyVal) : Option Bool :=
  (taxOfE r).tax_graph.getHidden v

/-- Whether a `PyVal` is a Python string. -/
def isPyStr : PyVal → Bool
  | .pyStr _ => true
  | .pyInt _ => false

/-- Every node id and every edge endpoint of the graph is a Python string. -/
def allStrIds (g : DiGraph PyVal) : Bool :=
  g.nodes.all (fun p => isPyStr p.1) &&
    g.edges.all (fun e => isPyStr e.1 && isPyStr e.2)

/-! ### Concrete fixtures used by witnesses and counterexamples -/

/-- Shorthand for a string-valued tax id. -/
def ps (s : String) : PyVal := PyVal.pyStr s

/-- A `names.dmp` header line (a synonym record; NCBI's real first line is the
`all` synonym record for tax id 1). -/
def nmHeader : String := "1\t|\tall\t|\t\t|\tsynonym\t|"

/-- `names.dmp` scientific-name record for tax id 1. -/
def nmLine1 : String := "1\t|\troot\t|\t\t|\tscientific name\t|"

/-- `names.dmp` scientific-name record for tax id 2. -/
def nmLine2 : String := "2\t|\tBacteria\t|\tBacteria <bacteria>\t|\tscientific name\t|"

/-- `nodes.dmp` record for the self-referential root `1 | 1 | no rank | ...`;
its 11th field (index 10) is the string `"0"`. -/
def ndRoot : String :=
  "1\t|\t1\t|\tno rank\t|\t\t|\t8\t|\t0\t|\t1\t|\t0\t|\t0\t|\t0\t|\t0\t|\t0\t|\t"

/-- `nodes.dmp` record `2 | 1 | superkingdom | ...` with 11th field `"1"`. -/
def ndChild : String :=
  "2\t|\t1\t|\tsuperkingdom\t|\t\t|\t0\t|\t0\t|\t11\t|\t0\t|\t0\t|\t0\t|\t1\t|\t0\t|\t"

/-- A second `nodes.dmp` record for the *same* tax id 2 (a duplicate), with a
different rank and an empty 11th field. -/
def ndChildDup : String :=
  "2\t|\t1\t|\tgenus\t|\t\t|\t0\t|\t0\t|\t11\t|\t0\t|\t0\t|\t0\t|\t\t|\t0\t|\t"

/-- A small concrete taxonomy (the shape of the repository's own test fixture):
a chain 4 → 3 → 2 → 1 with a sibling 5 → 2. -/
def sampleTax : Taxonomy PyVal :=
  ⟨{ nodes :=
      [(ps "1", some ⟨"root", "no rank", false⟩),
       (ps "2", some ⟨"Bacteria", "superkingdom", false⟩),
       (ps "3", some ⟨"Escherichia", "genus", false⟩),
       (ps "4", some ⟨"Escherichia coli", "species", false⟩),
       (ps "5", some ⟨"Salmonella", "genus", false⟩)],
     edges :=
      [(ps "2", ps "1"), (ps "3", ps "2"), (ps "4", ps "3"), (ps "5", ps "2")] }⟩

/-- The lineage chain of node 4 in `sampleTax`. -/
def chain4 : List PyVal := [ps "4", ps "3", ps "2", ps "1"]

/-- The lineage chain of node 5 in `sampleTax`. -/
def chain5 : List PyVal := [ps "5", ps "2", ps "1"]

/-- The lineage chain of node 3 in `sampleTax`. -/
def chain3 : List PyVal := [ps "3", ps "2", ps "1"]

/-- The lineage chain of the root of `sampleTax`. -/
def chain1 : List PyVal := [ps "1"]

/-! ### List helper lemmas -/

theorem take_reverse_eq_reverse_drop {α : Type} (c : List α) (k : Nat) :
    c.reverse.take k = (c.drop (c.length - k)).reverse := by
  by_cases hk : k ≤ c.length
  · have hsplit : c = c.take (c.length - k) ++ c.drop (c.length - k) :=
      (List.take_append_drop _ _).symm
    have hlen : (c.drop (c.length - k)).reverse.length = k := by
      simp [List.length_drop]
      omega
    calc c.reverse.take k
        = ((c.drop (c.length - k)).reverse ++ (c.take (c.length - k)).reverse).take k := by
          conv_lhs => rw [hsplit]
          rw [List.reverse_append]
      _ = (c.drop (c.length - k)).reverse := List.take_left' hlen
  · have h1 : c.length - k = 0 := by omega
    rw [h1, List.drop_zero, List.take_of_length_le (by simpa using by omega)]

theorem olast_cons {α : Type} (a : α) (m : List α) (acc : Option α) :
    olast (a :: m) acc = olast m (some a) := rfl

theorem olast_acc_getLast {α : Type} (l : List α) :
    ∀ a : α, olast l (some a) = (a :: l).getLast? := by
  induction l with
  | nil => intro a; rfl
  | cons b bs ih =>
    intro a
    rw [olast_cons, ih b, List.getLast?_cons_cons]

theorem olast_none {α : Type} (l : List α) : olast l none = l.getLast? := by
  cases l with
  | nil => rfl
  | cons a as => rw [olast_cons, olast_acc_getLast]

theorem lcaLoop_eq {α : Type} [DecidableEq α] (l1 : List α) :
    ∀ (l2 : List α) (acc : Option α), lcaLoop l1 l2 acc = olast (commonPref l1 l2) acc := by
  induction l1 with
  | nil => intro l2 acc; cases l2 <;> simp [lcaLoop, commonPref, olast]
  | cons a as ih =>
    intro l2 acc
    cases l2 with
    | nil => simp [lcaLoop, commonPref, olast]
    | cons b bs =>
      by_cases hab : a = b
      · subst hab
        have h1 : lcaLoop (a :: as) (a :: bs) acc = lcaLoop as bs (some a) := by
          simp [lcaLoop]
        have h2 : commonPref (a :: as) (a :: bs) = a :: commonPref as bs := by
          simp [commonPref]
        rw [h1, h2, olast_cons, ih bs (some a)]
      · simp [lcaLoop, commonPref, hab, olast]

theorem commonPref_comm {α : Type} [DecidableEq α] (l1 : List α) :
    ∀ l2 : List α, commonPref l1 l2 = commonPref l2 l1 := by
  induction l1 with
  | nil => intro l2; cases l2 <;> simp [commonPref]
  | cons a as ih =>
    intro l2
    cases l2 with
    | nil => simp [commonPref]
    | cons b bs =>
      by_cases hab : a = b
      · subst hab; simp [commonPref, ih bs]
      · simp [commonPref, hab, Ne.symm hab]

theorem commonPref_assoc {α : Type} [DecidableEq α] (l1 : List α) :
    ∀ l2 l3 : List α,
      commonPref (commonPref l1 l2) l3 = commonPref l1 (commonPref l2 l3) := by
  induction l1 with
  | nil => intro l2 l3; cases l2 <;> cases l3 <;> simp [commonPref]
  | cons a as ih =>
    intro l2 l3
    cases l2 with
    | nil => cases l3 <;> simp [commonPref]
    | cons b bs =>
      cases l3 with
      | nil =>
        by_cases hab : a = b <;> simp [commonPref, hab]
      | cons c cs =>
        by_cases hab : a = b
        · subst hab
          by_cases hac : a = c
          · subst hac
            simp [commonPref, ih bs cs]
          · simp [commonPref, hac]
        · by_cases hbc : b = c
          · subst hbc
            simp [commonPref, hab]
          · simp [commonPref, hab, hbc]

theorem commonPref_exists_take {α : Type} [DecidableEq α] (l1 : List α) :
    ∀ l2 : List α, ∃ k, commonPref l1 l2 = l1.take k := by
  induction l1 with
  | nil => intro l2; exact ⟨0, by cases l2 <;> simp [commonPref]⟩
  | cons a as ih =>
    intro l2
    cases l2 with
    | nil => exact ⟨0, by simp [commonPref]⟩
    | cons b bs =>
      by_cases hab : a = b
      · obtain ⟨k, hk⟩ := ih bs
        exact ⟨k + 1, by simp [commonPref, hab, hk]⟩
      · exact ⟨0, by simp [commonPref, hab]⟩

theorem commonPref_head {α : Type} [DecidableEq α] (l1 l2 : List α) (r : α)
    (h1 : l1.head? = some r) (h2 : l2.head? = some r) :
    (commonPref l1 l2).head? = some r := by
  cases l1 with
  | nil => simp at h1
  | cons a as =>
    cases l2 with
    | nil => simp at h2
    | cons b bs =>
      simp only [List.head?_cons, Option.some.injEq] at h1 h2
      subst h1; subst h2
      simp [commonPref]

/-! ### DiGraph helper lemmas -/

theorem succs_addNode {α : Type} [DecidableEq α] (g : DiGraph α) (v w : α) (d : NodeData) :
    (g.addNode v d).succs w = g.succs w := by
  simp only [DiGraph.addNode]
  split <;> rfl

theorem succs_ensureNode {α : Type} [DecidableEq α] (g : DiGraph α) (v w : α) :
    (g.ensureNode v).succs w = g.succs w := by
  simp only [DiGraph.ensureNode]
  split <;> rfl

theorem edges_ensureNode {α : Type} [DecidableEq α] (g : DiGraph α) (v : α) :
    (g.ensureNode v).edges = g.edges := by
  simp only [DiGraph.ensureNode]
  split <;> rfl

theorem edges_addEdge {α : Type} [DecidableEq α] (g : DiGraph α) (u v : α) :
    (g.addEdge u v).edges = g.edges ∨ (g.addEdge u v).edges = g.edges ++ [(u, v)] := by
  simp only [DiGraph.addEdge]
  split
  · left; rw [edges_ensureNode, edges_ensureNode]
  · right
    show ((g.ensureNode u).ensureNode v).edges ++ [(u, v)] = g.edges ++ [(u, v)]
    rw [edges_ensureNode, edges_ensureNode]

theorem succs_addEdge_ne {α : Type} [DecidableEq α] (g : DiGraph α) (u v w : α)
    (h : u ≠ w) : (g.addEdge u v).succs w = g.succs w := by
  have hnil : List.filter (fun e => decide (e.1 = w)) [(u, v)] = [] := by
    simp [List.filter, h]
  rcases edges_addEdge g u v with he | he
  · simp only [DiGraph.succs, he]
  · simp only [DiGraph.succs, he, List.filter_append, hnil, List.append_nil]

theorem mem_edges_of_succs_single {α : Type} [DecidableEq α] (g : DiGraph α) (a p : α)
    (h : g.succs a = [p]) : (a, p) ∈ g.edges := by
  simp only [DiGraph.succs] at h
  cases hf : g.edges.filter (fun e => decide (e.1 = a)) with
  | nil => rw [hf] at h; simp at h
  | cons e es =>
    rw [hf] at h
    simp only [List.map_cons, List.cons.injEq] at h
    have he : e ∈ g.edges.filter (fun e => decide (e.1 = a)) := by
      rw [hf]; exact List.mem_cons_self _ _
    have h1 : e.1 = a := by simpa using List.of_mem_filter he
    have heq : e = (a, p) := Prod.ext h1 h.1
    have hin : e ∈ g.edges := List.mem_of_mem_filter he
    rwa [heq] at hin

theorem find?_map_update {α : Type} [DecidableEq α] (l : List (α × Option NodeData))
    (v : α) (d : NodeData) (hs : (l.find? (fun p => decide (p.1 = v))).isSome) :
    (l.map (fun p => if p.1 = v then (v, some d) else p)).find?
      (fun p => decide (p.1 = v)) = some (v, some d) := by
  induction l with
  | nil => simp at hs
  | cons p ps ih =>
    by_cases hp : p.1 = v
    · simp [List.find?, hp]
    · have hs2 : (ps.find? (fun p => decide (p.1 = v))).isSome := by
        simpa [List.find?, hp] using hs
      simpa [List.find?, hp] using ih hs2

theorem find?_map_update_ne {α : Type} [DecidableEq α] (l : List (α × Option NodeData))
    (v w : α) (d : NodeData) (hvw : w ≠ v) :
    (l.map (fun p => if p.1 = v then (v, some d) else p)).find?
      (fun p => decide (p.1 = w)) = l.find? (fun p => decide (p.1 = w)) := by
  induction l with
  | nil => rfl
  | cons p ps ih =>
    by_cases hp : p.1 = v
    · rw [List.map_cons, if_pos hp,
        List.find?_cons_of_neg _ (by simp; exact fun h => hvw h.symm),
        List.find?_cons_of_neg _ (by simp [hp]; exact fun h => hvw h.symm)]
      exact ih
    · by_cases hpw : p.1 = w
      · rw [List.map_cons, if_neg hp,
          List.find?_cons_of_pos _ (by simp [hpw]),
          List.find?_cons_of_pos _ (by simp [hpw])]
      · rw [List.map_cons, if_neg hp,
          List.find?_cons_of_neg _ (by simp [hpw]),
          List.find?_cons_of_neg _ (by simp [hpw])]
        exact ih

theorem getName_addNode_self {α : Type} [DecidableEq α] (g : DiGraph α) (v : α)
    (d : NodeData) : (g.addNode v d).getName v = some d.name := by
  simp only [DiGraph.addNode]
  split
  · next hv =>
    simp only [DiGraph.getName]
    rw [find?_map_update g.nodes v d hv]
  · next hv =>
    simp only [DiGraph.getName, List.find?_append]
    have hnone : g.nodes.find? (fun p => decide (p.1 = v)) = none := by
      simp only [DiGraph.hasNode] at hv
      cases h : g.nodes.find? (fun p => decide (p.1 = v)) with
      | none => rfl
      | some p => rw [h] at hv; simp at hv
    rw [hnone]
    simp [List.find?]

theorem getName_addNode_ne {α : Type} [DecidableEq α] (g : DiGraph α) (v w : α)
    (d : NodeData) (hvw : w ≠ v) : (g.addNode v d).getName w = g.getName w := by
  simp only [DiGraph.addNode]
  split
  · simp only [DiGraph.getName]
    rw [find?_map_update_ne g.nodes v w d hvw]
  · simp only [DiGraph.getName, List.find?_append]
    have hnil : List.find? (fun p => decide (p.1 = w)) [(v, some d)] = none := by
      rw [List.find?_cons_of_neg _ (by simp; exact fun h => hvw h.symm)]
      rfl
    rw [hnil, Option.or_none]

theorem getName_ensureNode_some {α : Type} [DecidableEq α] (g : DiGraph α) (v w : α)
    (nm : String) (h : g.getName w = some nm) :
    (g.ensureNode v).getName w = some nm := by
  simp only [DiGraph.ensureNode]
  split
  · exact h
  · simp only [DiGraph.getName] at h ⊢
    rw [List.find?_append]
    cases hf : g.nodes.find? (fun p => decide (p.1 = w)) with
    | none => rw [hf] at h; simp at h
    | some p => rw [hf] at h; simp [Option.or, h]

theorem getName_addEdge_some {α : Type} [DecidableEq α] (g : DiGraph α) (u v w : α)
    (nm : String) (h : g.getName w = some nm) :
    (g.addEdge u v).getName w = some nm := by
  have h1 : ((g.ensureNode u).ensureNode v).getName w = some nm :=
    getName_ensureNode_some _ _ _ _ (getName_ensureNode_some _ _ _ _ h)
  simp only [DiGraph.addEdge]
  split
  · exact h1
  · exact h1

/-! ### RootPath lemmas -/

theorem rootPath_ne_nil {α : Type} [DecidableEq α] {g : DiGraph α} {x : α} {c : List α}
    (h : RootPath g x c) : c ≠ [] := by
  cases h <;> simp

theorem rootPath_cons {α : Type} [DecidableEq α] {g : DiGraph α} {x : α} {c : List α}
    (h : RootPath g x c) : ∃ c0, c = x :: c0 := by
  cases h with
  | leaf _ _ => exact ⟨[], rfl⟩
  | step _ p c0 _ _ => exact ⟨c0, rfl⟩

theorem rootPath_unique {α : Type} [DecidableEq α] {g : DiGraph α} {x : α}
    {c1 : List α} (h1 : RootPath g x c1) :
    ∀ {c2 : List α}, RootPath g x c2 → c1 = c2 := by
  induction h1 with
  | leaf x hs =>
    intro c2 h2
    cases h2 with
    | leaf _ _ => rfl
    | step _ p c0 hs2 _ => rw [hs] at hs2; exact absurd hs2 (by simp)
  | step x p c0 hs hp ih =>
    intro c2 h2
    cases h2 with
    | leaf _ hs2 => rw [hs] at hs2; exact absurd hs2 (by simp)
    | step _ q c3 hs2 hq =>
      rw [hs] at hs2
      have hpq : p = q := by simpa using hs2
      subst hpq
      rw [ih hq]

theorem rootPath_drop {α : Type} [DecidableEq α] {g : DiGraph α} {x : α} {c : List α}
    (h : RootPath g x c) :
    ∀ (i : Nat) (hi : i < c.length), RootPath g (c.get ⟨i, hi⟩) (c.drop i) := by
  induction h with
  | leaf x hs =>
    intro i hi
    have hi0 : i = 0 := Nat.lt_one_iff.mp (by simpa using hi)
    subst hi0
    exact RootPath.leaf x hs
  | step x p c0 hs hp ih =>
    intro i hi
    cases i with
    | zero => exact RootPath.step x p c0 hs hp
    | succ j =>
      have hj : j < c0.length := by simpa using hi
      simpa using ih j hj

theorem rootPath_nodup {α : Type} [DecidableEq α] {g : DiGraph α} {x : α} {c : List α}
    (h : RootPath g x c) : c.Nodup := by
  induction h with
  | leaf x hs => simp
  | step x p c0 hs hp ih =>
    rw [List.nodup_cons]
    refine ⟨?_, ih⟩
    intro hmem
    obtain ⟨⟨i, hi⟩, hget⟩ := List.get_of_mem hmem
    have hdrop : RootPath g x (c0.drop i) := hget ▸ rootPath_drop hp i hi
    have hstep : RootPath g x (x :: c0) := RootPath.step x p c0 hs hp
    have heq : x :: c0 = c0.drop i := rootPath_unique hstep hdrop
    have hlen : (x :: c0).length = (c0.drop i).length := by rw [heq]
    simp only [List.length_cons, List.length_drop] at hlen
    omega

theorem rootPath_dropLast_sources {α : Type} [DecidableEq α] {g : DiGraph α} {x : α}
    {c : List α} (h : RootPath g x c) :
    ∀ a ∈ c.dropLast, ∃ b, g.succs a = [b] := by
  induction h with
  | leaf x hs => simp
  | step x p c0 hs hp ih =>
    intro a ha
    have hc0 : c0 ≠ [] := rootPath_ne_nil hp
    rw [List.dropLast_cons_of_ne_nil hc0] at ha
    rcases List.mem_cons.mp ha with rfl | ha2
    · exact ⟨p, hs⟩
    · exact ih a ha2

theorem rootPath_length_le {α : Type} [DecidableEq α] {g : DiGraph α} {x : α}
    {c : List α} (h : RootPath g x c) : c.length ≤ g.edges.length + 1 := by
  have hsub : c.dropLast ⊆ g.edges.map Prod.fst := by
    intro a ha
    obtain ⟨b, hb⟩ := rootPath_dropLast_sources h a ha
    have := mem_edges_of_succs_single g a b hb
    exact List.mem_map.mpr ⟨(a, b), this, rfl⟩
  have hnd : c.dropLast.Nodup := (List.dropLast_sublist c).nodup (rootPath_nodup h)
  have hle : c.dropLast.length ≤ (g.edges.map Prod.fst).length :=
    (hnd.subperm hsub).length_le
  have hlen : c.dropLast.length = c.length - 1 := List.length_dropLast c
  have hpos : 0 < c.length := List.length_pos.mpr (rootPath_ne_nil h)
  rw [List.length_map] at hle
  omega

/-! ### DFS correctness on lineage chains -/

theorem dfsPreAux_eq {α : Type} [DecidableEq α] {g : DiGraph α} {x : α} {c : List α}
    (h : RootPath g x c) :
    ∀ (fuel : Nat) (vis : List α), c.length ≤ fuel → (∀ y ∈ c, y ∉ vis) →
      dfsPreAux g fuel x vis = (c, c.reverse ++ vis) := by
  induction h with
  | leaf x hs =>
    intro fuel vis hfuel hdis
    cases fuel with
    | zero => simp at hfuel
    | succ n =>
      have hx : x ∉ vis := hdis x (by simp)
      simp [dfsPreAux, hx, hs]
  | step x p c0 hs hp ih =>
    intro fuel vis hfuel hdis
    cases fuel with
    | zero => simp at hfuel
    | succ n =>
      have hx : x ∉ vis := hdis x (by simp)
      have hxc0 : x ∉ c0 :=
        (List.nodup_cons.mp (rootPath_nodup (RootPath.step x p c0 hs hp))).1
      have hdis2 : ∀ y ∈ c0, y ∉ x :: vis := by
        intro y hy
        simp only [List.mem_cons, not_or]
        exact ⟨fun heq => hxc0 (heq ▸ hy), hdis y (List.mem_cons_of_mem _ hy)⟩
      have hlen : c0.length ≤ n := by simp at hfuel; omega
      have hrec := ih n (x :: vis) hlen hdis2
      simp only [dfsPreAux, if_neg hx, hs, List.foldl_cons, List.foldl_nil, hrec]
      simp

theorem dfsPostAux_eq {α : Type} [DecidableEq α] {g : DiGraph α} {x : α} {c : List α}
    (h : RootPath g x c) :
    ∀ (fuel : Nat) (vis : List α), c.length ≤ fuel → (∀ y ∈ c, y ∉ vis) →
      dfsPostAux g fuel x vis = (c.reverse, c.reverse ++ vis) := by
  induction h with
  | leaf x hs =>
    intro fuel vis hfuel hdis
    cases fuel with
    | zero => simp at hfuel
    | succ n =>
      have hx : x ∉ vis := hdis x (by simp)
      simp [dfsPostAux, hx, hs]
  | step x p c0 hs hp ih =>
    intro fuel vis hfuel hdis
    cases fuel with
    | zero => simp at hfuel
    | succ n =>
      have hx : x ∉ vis := hdis x (by simp)
      have hxc0 : x ∉ c0 :=
        (List.nodup_cons.mp (rootPath_nodup (RootPath.step x p c0 hs hp))).1
      have hdis2 : ∀ y ∈ c0, y ∉ x :: vis := by
        intro y hy
        simp only [List.mem_cons, not_or]
        exact ⟨fun heq => hxc0 (heq ▸ hy), hdis y (List.mem_cons_of_mem _ hy)⟩
      have hlen : c0.length ≤ n := by simp at hfuel; omega
      have hrec := ih n (x :: vis) hlen hdis2
      simp only [dfsPostAux, if_neg hx, hs, List.foldl_cons, List.foldl_nil, hrec]
      simp

theorem dfs_pre_eq {α : Type} [DecidableEq α] {g : DiGraph α} {x : α} {c : List α}
    (h : RootPath g x c) : dfs_preorder_nodes g x = c := by
  have hfuel : c.length ≤ dfsFuel g := by
    have := rootPath_length_le h
    simp only [dfsFuel]
    omega
  simp [dfs_preorder_nodes, dfsPreAux_eq h (dfsFuel g) [] hfuel (by simp)]

theorem dfs_post_eq {α : Type} [DecidableEq α] {g : DiGraph α} {x : α} {c : List α}
    (h : RootPath g x c) : dfs_postorder_nodes g x = c.reverse := by
  have hfuel : c.length ≤ dfsFuel g := by
    have := rootPath_length_le h
    simp only [dfsFuel]
    omega
  simp [dfs_postorder_nodes, dfsPostAux_eq h (dfsFuel g) [] hfuel (by simp)]

/-! ### Taxonomy traversal lemmas -/

theorem parents_eq_tail {α : Type} [DecidableEq α] [ToString α] (t : Taxonomy α)
    {x : α} {c : List α} (hx : t.tax_graph.hasNode x = true)
    (hc : RootPath t.tax_graph x c) : t.parents x = .ok c.tail := by
  simp [Taxonomy.parents, hx, dfs_pre_eq hc, List.drop_one]

theorem rootPath_commonPref {α : Type} [DecidableEq α] {g : DiGraph α} {x y root : α}
    {cx cy : List α} (hx : RootPath g x cx) (hy : RootPath g y cy)
    (hlx : cx.getLast? = some root) (hly : cy.getLast? = some root) :
    ∃ w, (commonPref cx.reverse cy.reverse).getLast? = some w ∧
      RootPath g w (commonPref cx.reverse cy.reverse).reverse := by
  obtain ⟨k, hk⟩ := commonPref_exists_take cx.reverse cy.reverse
  have hhead : (commonPref cx.reverse cy.reverse).head? = some root :=
    commonPref_head _ _ root (by rw [List.head?_reverse]; exact hlx)
      (by rw [List.head?_reverse]; exact hly)
  have hne : commonPref cx.reverse cy.reverse ≠ [] := by
    intro h0; rw [h0] at hhead; simp at hhead
  have hPd : commonPref cx.reverse cy.reverse = (cx.drop (cx.length - k)).reverse := by
    rw [hk, take_reverse_eq_reverse_drop]
  have hdropne : cx.drop (cx.length - k) ≠ [] := by
    intro h0; rw [hPd, h0] at hne; simp at hne
  have hi_lt : cx.length - k < cx.length := by
    by_contra hge
    exact hdropne (List.drop_eq_nil_of_le (by omega))
  refine ⟨cx.get ⟨cx.length - k, hi_lt⟩, ?_, ?_⟩
  · rw [hPd, List.getLast?_reverse]
    rw [List.drop_eq_getElem_cons hi_lt]
    simp
  · rw [hPd, List.reverse_reverse]
    exact rootPath_drop hx (cx.length - k) hi_lt

theorem lca_double_chains {α : Type} [DecidableEq α] (t : Taxonomy α) {x y : α}
    {cx cy : List α} (hx : RootPath t.tax_graph x cx) (hy : RootPath t.tax_graph y cy) :
    t.lowest_common_ancestor_double x y =
      (commonPref cx.reverse cy.reverse).getLast? := by
  unfold Taxonomy.lowest_common_ancestor_double
  rw [dfs_post_eq hx, dfs_post_eq hy, lcaLoop_eq, olast_none]

theorem lca_double_comm {α : Type} [DecidableEq α] (t : Taxonomy α) (x y : α) :
    t.lowest_common_ancestor_double x y = t.lowest_common_ancestor_double y x := by
  unfold Taxonomy.lowest_common_ancestor_double
  rw [lcaLoop_eq, lcaLoop_eq, commonPref_comm]

theorem lca_double_root {α : Type} [DecidableEq α] (t : Taxonomy α) {root x : α}
    {cx : List α} (hroot : t.tax_graph.succs root = [])
    (hx : RootPath t.tax_graph x cx) (hlx : cx.getLast? = some root) :
    t.lowest_common_ancestor_double root x = some root := by
  unfold Taxonomy.lowest_common_ancestor_double
  rw [dfs_post_eq (RootPath.leaf root hroot), dfs_post_eq hx]
  have hhead : cx.reverse.head? = some root := by rw [List.head?_reverse]; exact hlx
  cases hrev : cx.reverse with
  | nil => rw [hrev] at hhead; simp at hhead
  | cons r rest =>
    rw [hrev] at hhead
    simp only [List.head?_cons, Option.some.injEq] at hhead
    subst hhead
    simp [lcaLoop]

theorem lca_double_assoc {α : Type} [DecidableEq α] (t : Taxonomy α) {root x y z : α}
    {cx cy cz : List α}
    (hx : RootPath t.tax_graph x cx) (hlx : cx.getLast? = some root)
    (hy : RootPath t.tax_graph y cy) (hly : cy.getLast? = some root)
    (hz : RootPath t.tax_graph z cz) (hlz : cz.getLast? = some root) :
    (t.lowest_common_ancestor_double x y).bind
        (fun w => t.lowest_common_ancestor_double w z) =
      (t.lowest_common_ancestor_double y z).bind
        (fun w => t.lowest_common_ancestor_double x w) := by
  obtain ⟨w1, hw1, hw1c⟩ := rootPath_commonPref hx hy hlx hly
  obtain ⟨w2, hw2, hw2c⟩ := rootPath_commonPref hy hz hly hlz
  rw [lca_double_chains t hx hy, lca_double_chains t hy hz, hw1, hw2]
  simp only [Option.some_bind]
  rw [lca_double_chains t hw1c hz, lca_double_chains t hx hw2c]
  rw [List.reverse_reverse, List.reverse_reverse]
  rw [commonPref_assoc]

/-! ### Parser fold lemmas -/

theorem nodesFold_error (nd : List (String × String)) (e : String) (lines : List String) :
    nodesFold nd (.error e) lines = .error e := by
  induction lines with
  | nil => rfl
  | cons l ls ih => simpa [nodesFold, nodesStep] using ih

theorem namesFold_error (e : String) (lines : List String) :
    lines.foldl namesStep (.error e) = .error e := by
  induction lines with
  | nil => rfl
  | cons l ls ih => simpa [namesStep] using ih

theorem namesFold_ok :
    ∀ (lines : List String), (∀ l ∈ lines, (parseNamesLine? l).isSome) →
      ∀ d : List (String × String), ∃ d2, lines.foldl namesStep (.ok d) = .ok d2 := by
  intro lines
  induction lines with
  | nil => exact fun _ d => ⟨d, rfl⟩
  | cons l ls ih =>
    intro hall d
    have hl := hall l (by simp)
    cases hp : parseNamesLine? l with
    | none => rw [hp] at hl; simp at hl
    | some triple =>
      obtain ⟨tid, ntxt, ntype⟩ := triple
      have step : namesStep (.ok d) l =
          .ok (if ntype = "scientific name" then dictInsert d tid ntxt else d) := by
        simp [namesStep, hp]
      obtain ⟨d2, hd2⟩ := ih (fun l2 hl2 => hall l2 (by simp [hl2]))
        (if ntype = "scientific name" then dictInsert d tid ntxt else d)
      exact ⟨d2, by simpa [List.foldl_cons, step] using hd2⟩

theorem nodesFold_ok (nd : List (String × String)) :
    ∀ (lines : List String), (∀ l ∈ lines, (parseNodesLine? l).isSome) →
      ∀ g : DiGraph PyVal, ∃ g2, nodesFold nd (.ok g) lines = .ok g2 := by
  intro lines
  induction lines with
  | nil => exact fun _ g => ⟨g, rfl⟩
  | cons l ls ih =>
    intro hall g
    have hl := hall l (by simp)
    cases hp : parseNodesLine? l with
    | none => rw [hp] at hl; simp at hl
    | some r =>
      obtain ⟨g2, hg2⟩ := ih (fun l2 hl2 => hall l2 (by simp [hl2]))
        (processNodesRecord nd g r)
      exact ⟨g2, by simpa [nodesFold, nodesStep, hp] using hg2⟩

theorem succs_processNodesRecord {nd : List (String × String)} {g : DiGraph PyVal}
    {r : NodesRec} {tid : String}
    (hr : r.tax_id = tid → r.parent_tax_id = tid)
    (hg : g.succs (PyVal.pyStr tid) = []) :
    (processNodesRecord nd g r).succs (PyVal.pyStr tid) = [] := by
  unfold processNodesRecord
  by_cases hself : r.tax_id = r.parent_tax_id
  · simp only [if_pos hself]
    rw [succs_addNode]
    exact hg
  · simp only [if_neg hself]
    by_cases htid : r.tax_id = tid
    · exact absurd (htid.trans (hr htid).symm) hself
    · rw [succs_addEdge_ne _ _ _ _ (fun h => htid (PyVal.pyStr.inj h)),
        succs_addNode]
      exact hg

theorem nodesFold_no_self_edge (nd : List (String × String)) (tid : String) :
    ∀ (lines : List String) (g : DiGraph PyVal),
      (∀ line ∈ lines, ∀ r : NodesRec, parseNodesLine? line = some r →
        r.tax_id = tid → r.parent_tax_id = tid) →
      g.succs (PyVal.pyStr tid) = [] →
      ∀ g2, nodesFold nd (.ok g) lines = .ok g2 →
        g2.succs (PyVal.pyStr tid) = [] := by
  intro lines
  induction lines with
  | nil =>
    intro g _ hg g2 h2
    simp only [nodesFold, List.foldl_nil, Except.ok.injEq] at h2
    exact h2 ▸ hg
  | cons l ls ih =>
    intro g hall hg g2 h2
    cases hp : parseNodesLine? l with
    | none =>
      rw [show nodesFold nd (.ok g) (l :: ls) =
          nodesFold nd (.error "IndexError: list index out of range") ls from by
            simp [nodesFold, nodesStep, hp]] at h2
      rw [nodesFold_error] at h2
      exact absurd h2 (by simp)
    | some r =>
      rw [show nodesFold nd (.ok g) (l :: ls) =
          nodesFold nd (.ok (processNodesRecord nd g r)) ls from by
            simp [nodesFold, nodesStep, hp]] at h2
      exact ih (processNodesRecord nd g r)
        (fun l2 hl2 => hall l2 (List.mem_cons_of_mem _ hl2))
        (succs_processNodesRecord (hall l (by simp) r hp) hg) g2 h2

theorem allStrIds_addNode (g : DiGraph PyVal) (s : String) (d : NodeData)
    (h : allStrIds g = true) : allStrIds (g.addNode (PyVal.pyStr s) d) = true := by
  simp only [allStrIds, Bool.and_eq_true, List.all_eq_true] at h
  obtain ⟨hn, he⟩ := h
  unfold DiGraph.addNode
  split <;> simp only [allStrIds, Bool.and_eq_true, List.all_eq_true] <;>
    refine ⟨?_, fun e hee => he e hee⟩
  · intro p hp
    obtain ⟨q, hq, rfl⟩ := List.mem_map.mp hp
    by_cases hq1 : q.1 = PyVal.pyStr s
    · simp [hq1, isPyStr]
    · simp only [if_neg hq1]
      exact hn q hq
  · intro p hp
    rcases List.mem_append.mp hp with hp1 | hp2
    · exact hn p hp1
    · simp only [List.mem_singleton] at hp2
      subst hp2
      simp [isPyStr]

theorem allStrIds_ensureNode (g : DiGraph PyVal) (s : String)
    (h : allStrIds g = true) : allStrIds (g.ensureNode (PyVal.pyStr s)) = true := by
  unfold DiGraph.ensureNode
  split
  · exact h
  · simp only [allStrIds, Bool.and_eq_true, List.all_eq_true] at h ⊢
    obtain ⟨hn, he⟩ := h
    refine ⟨?_, fun e hee => he e hee⟩
    intro p hp
    rcases List.mem_append.mp hp with hp1 | hp2
    · exact hn p hp1
    · simp only [List.mem_singleton] at hp2
      subst hp2
      simp [isPyStr]

theorem allStrIds_addEdge (g : DiGraph PyVal) (s1 s2 : String)
    (h : allStrIds g = true) :
    allStrIds (g.addEdge (PyVal.pyStr s1) (PyVal.pyStr s2)) = true := by
  have h2 : allStrIds ((g.ensureNode (PyVal.pyStr s1)).ensureNode (PyVal.pyStr s2)) = true :=
    allStrIds_ensureNode _ s2 (allStrIds_ensureNode g s1 h)
  simp only [DiGraph.addEdge]
  split
  · exact h2
  · simp only [allStrIds, Bool.and_eq_true, List.all_eq_true] at h2 ⊢
    obtain ⟨hn, he⟩ := h2
    refine ⟨fun p hp => hn p hp, ?_⟩
    intro e hee
    rcases List.mem_append.mp hee with he1 | he2
    · exact he e he1
    · simp only [List.mem_singleton] at he2
      subst he2
      simp [isPyStr]

theorem allStrIds_processNodesRecord (nd : List (String × String)) (g : DiGraph PyVal)
    (r : NodesRec) (h : allStrIds g = true) :
    allStrIds (processNodesRecord nd g r) = true := by
  unfold processNodesRecord
  by_cases hself : r.tax_id = r.parent_tax_id
  · simp only [if_pos hself]
    exact allStrIds_addNode g r.tax_id _ h
  · simp only [if_neg hself]
    exact allStrIds_addEdge _ r.tax_id r.parent_tax_id (allStrIds_addNode g r.tax_id _ h)

theorem nodesFold_allStrIds (nd : List (String × String)) :
    ∀ (lines : List String) (g : DiGraph PyVal), allStrIds g = true →
      ∀ g2, nodesFold nd (.ok g) lines = .ok g2 → allStrIds g2 = true := by
  intro lines
  induction lines with
  | nil =>
    intro g hg g2 h2
    simp only [nodesFold, List.foldl_nil, Except.ok.injEq] at h2
    exact h2 ▸ hg
  | cons l ls ih =>
    intro g hg g2 h2
    cases hp : parseNodesLine? l with
    | none =>
      rw [show nodesFold nd (.ok g) (l :: ls) =
          nodesFold nd (.error "IndexError: list index out of range") ls from by
            simp [nodesFold, nodesStep, hp]] at h2
      rw [nodesFold_error] at h2
      exact absurd h2 (by simp)
    | some r =>
      rw [show nodesFold nd (.ok g) (l :: ls) =
          nodesFold nd (.ok (processNodesRecord nd g r)) ls from by
            simp [nodesFold, nodesStep, hp]] at h2
      exact ih (processNodesRecord nd g r) (allStrIds_processNodesRecord nd g r hg) g2 h2

theorem processNodesRecord_sets_default {nd : List (String × String)} {tid : String}
    (hnd : dictGet? nd tid = none) (g : DiGraph PyVal) (r : NodesRec)
    (hr : r.tax_id = tid) :
    (processNodesRecord nd g r).getName (PyVal.pyStr tid) = some "No name found." := by
  subst hr
  unfold processNodesRecord
  split
  · rw [getName_addNode_self]
    simp [hnd]
  · rw [getName_addEdge_some _ _ _ _ _ (by rw [getName_addNode_self])]
    simp [hnd]

theorem processNodesRecord_keeps_default {nd : List (String × String)}
    (g : DiGraph PyVal) (r : NodesRec) (tid : String) (nm : String)
    (hr : r.tax_id ≠ tid) (hg : g.getName (PyVal.pyStr tid) = some nm) :
    (processNodesRecord nd g r).getName (PyVal.pyStr tid) = some nm := by
  have hne : PyVal.pyStr tid ≠ PyVal.pyStr r.tax_id :=
    fun h => hr (PyVal.pyStr.inj h).symm
  unfold processNodesRecord
  split
  · rw [getName_addNode_ne _ _ _ _ hne]
    exact hg
  · exact getName_addEdge_some _ _ _ _ _ (by rw [getName_addNode_ne _ _ _ _ hne]; exact hg)

theorem nodesFold_default_name (nd : List (String × String)) (tid : String)
    (hnd : dictGet? nd tid = none) :
    ∀ (lines : List String) (g : DiGraph PyVal),
      ((∃ line ∈ lines, ∃ r : NodesRec, parseNodesLine? line = some r ∧ r.tax_id = tid) ∨
        g.getName (PyVal.pyStr tid) = some "No name found.") →
      ∀ g2, nodesFold nd (.ok g) lines = .ok g2 →
        g2.getName (PyVal.pyStr tid) = some "No name found." := by
  intro lines
  induction lines with
  | nil =>
    intro g hinv g2 h2
    simp only [nodesFold, List.foldl_nil, Except.ok.injEq] at h2
    rcases hinv with ⟨l, hl, _⟩ | hP
    · simp at hl
    · exact h2 ▸ hP
  | cons l ls ih =>
    intro g hinv g2 h2
    cases hp : parseNodesLine? l with
    | none =>
      rw [show nodesFold nd (.ok g) (l :: ls) =
          nodesFold nd (.error "IndexError: list index out of range") ls from by
            simp [nodesFold, nodesStep, hp]] at h2
      rw [nodesFold_error] at h2
      exact absurd h2 (by simp)
    | some r =>
      rw [show nodesFold nd (.ok g) (l :: ls) =
          nodesFold nd (.ok (processNodesRecord nd g r)) ls from by
            simp [nodesFold, nodesStep, hp]] at h2
      by_cases hr : r.tax_id = tid
      · exact ih (processNodesRecord nd g r)
          (Or.inr (processNodesRecord_sets_default hnd g r hr)) g2 h2
      · rcases hinv with ⟨l2, hl2, r2, hp2, hr2⟩ | hP
        · rcases List.mem_cons.mp hl2 with rfl | hl2t
          · rw [hp] at hp2
            have : r = r2 := by injection hp2
            exact absurd (this ▸ hr2) hr
          · exact ih (processNodesRecord nd g r)
              (Or.inl ⟨l2, hl2t, r2, hp2, hr2⟩) g2 h2
        · exact ih (processNodesRecord nd g r)
            (Or.inr (processNodesRecord_keeps_default g r tid _ hr hP)) g2 h2

/-! ### Claim theorems -/

theorem taxonomy_from_ncbi_ok_elim (ns nds : List String) (t : Taxonomy PyVal)
    (ht : taxonomy_from_ncbi ns nds = .ok t) :
    ∃ nd g, buildNamesDict (ns.drop 1) = .ok nd ∧
      nodesFold nd (.ok DiGraph.empty) nds = .ok g ∧ t = ⟨g⟩ := by
  cases hnd : buildNamesDict (ns.drop 1) with
  | error e =>
    have herr : taxonomy_from_ncbi ns nds = .error e := by
      unfold taxonomy_from_ncbi
      rw [hnd]
    rw [herr] at ht
    cases ht
  | ok nd =>
    cases hg : nodesFold nd (.ok DiGraph.empty) nds with
    | error e =>
      have herr : taxonomy_from_ncbi ns nds = .error e := by
        unfold taxonomy_from_ncbi
        rw [hnd]
        show (match nodesFold nd (.ok DiGraph.empty) nds with
          | Except.error e => Except.error e
          | Except.ok g => Except.ok (⟨g⟩ : Taxonomy PyVal)) = Except.error e
        rw [hg]
      rw [herr] at ht
      cases ht
    | ok g =>
      have hok : taxonomy_from_ncbi ns nds = .ok (⟨g⟩ : Taxonomy PyVal) := by
        unfold taxonomy_from_ncbi
        rw [hnd]
        show (match nodesFold nd (.ok DiGraph.empty) nds with
          | Except.error e => Except.error e
          | Except.ok g => Except.ok (⟨g⟩ : Taxonomy PyVal)) = Except.ok ⟨g⟩
        rw [hg]
      rw [hok] at ht
      injection ht with ht2
      exact ⟨nd, g, rfl, hg, ht2.symm⟩

/-- C1 (amended): in `formats.taxonomy_from_ncbi`, a `nodes.dmp` record with
`tax_id == parent_tax_id` stores no parent edge, so a tax id all of whose records
are self-referential ends up with no outgoing edge — its parent is none.  (The
claim as stated is false of the also-cited legacy `Taxonomy.build_from_ncbi`,
which stores a self-loop edge; see the counterexample.) -/
theorem C1_self_ref_no_edge (ns nds : List String) (t : Taxonomy PyVal) (tid : String)
    (ht : taxonomy_from_ncbi ns nds = .ok t)
    (hself : ∀ line ∈ nds, ∀ r : NodesRec, parseNodesLine? line = some r →
      r.tax_id = tid → r.parent_tax_id = tid) :
    t.tax_graph.succs (PyVal.pyStr tid) = [] := by
  obtain ⟨nd, g, _, hg, hT⟩ := taxonomy_from_ncbi_ok_elim ns nds t ht
  subst hT
  exact nodesFold_no_self_edge nd tid nds DiGraph.empty hself rfl g hg

/-- C1 counterexample: the legacy parser `Taxonomy.build_from_ncbi`
(`taxonomy/taxonomy.py`) *does* store a parent edge for the self-referential root
record `1 | 1 | …`: the resulting graph contains the self-loop edge `(1, 1)`,
contradicting "no parent edge is stored for it". -/
theorem C1_self_loop_counterexample :
    (parseNodesLine? ndRoot).map (fun r => (r.tax_id, r.parent_tax_id)) =
      some ("1", "1") ∧
    edgesOfE (build_from_ncbi ["hdr"] [ndRoot]) = [(PyVal.pyInt 1, PyVal.pyInt 1)] :=
  ⟨rfl, rfl⟩

/-- Witness for C1: on a concrete NCBI input whose only record for tax id 1 is
self-referential, `taxonomy_from_ncbi` succeeds and node 1 has no outgoing edge. -/
theorem C1_self_ref_no_edge_witness :
    taxonomy_from_ncbi [nmHeader, nmLine1] [ndRoot, ndChild] =
      .ok (taxOfE (taxonomy_from_ncbi [nmHeader, nmLine1] [ndRoot, ndChild])) ∧
    (taxOfE (taxonomy_from_ncbi [nmHeader, nmLine1] [ndRoot, ndChild])).tax_graph.succs
      (PyVal.pyStr "1") = [] := by
  refine ⟨rfl, ?_⟩
  refine C1_self_ref_no_edge [nmHeader, nmLine1] [ndRoot, ndChild] _ "1" rfl ?_
  intro line hl r hpr
  rcases List.mem_cons.mp hl with rfl | hl2
  · rw [show parseNodesLine? ndRoot = some ⟨"1", "1", "no rank", "0"⟩ from rfl] at hpr
    injection hpr with h
    subst h
    intro _
    rfl
  · simp only [List.mem_singleton] at hl2
    subst hl2
    rw [show parseNodesLine? ndChild = some ⟨"2", "1", "superkingdom", "1"⟩ from rfl] at hpr
    injection hpr with h
    subst h
    intro htid
    exact absurd htid (by decide)

/-- C2: for every tax id present in the taxonomy whose lineage chain
(follow the unique child → parent edge to the root) is `c`, `parents` returns
exactly `c` without its first element — the ordered ancestors from the immediate
parent up to the root — and returns `[]` for the root itself. -/
theorem C2_parents_lineage (t : Taxonomy PyVal) (x : PyVal) (c : List PyVal)
    (hx : t.tax_graph.hasNode x = true) (hc : RootPath t.tax_graph x c) :
    t.parents x = .ok c.tail ∧
      (t.tax_graph.succs x = [] → t.parents x = .ok []) := by
  refine ⟨parents_eq_tail t hx hc, fun hs => ?_⟩
  simpa using parents_eq_tail t hx (RootPath.leaf x hs)

/-- Witness for C2: in the concrete sample taxonomy, `parents("4")` is the chain
`["3", "2", "1"]` and the root's parents list is empty. -/
theorem C2_parents_lineage_witness :
    sampleTax.tax_graph.hasNode (ps "4") = true ∧
    (sampleTax.parents (ps "4") = .ok chain4.tail ∧
      (sampleTax.tax_graph.succs (ps "4") = [] → sampleTax.parents (ps "4") = .ok [])) := by
  have h1 : sampleTax.tax_graph.hasNode (ps "4") = true := by decide
  have h2 : RootPath sampleTax.tax_graph (ps "4") chain4 :=
    RootPath.step _ _ _ (by decide)
      (RootPath.step _ _ _ (by decide)
        (RootPath.step _ _ _ (by decide)
          (RootPath.leaf _ (by decide))))
  exact ⟨h1, C2_parents_lineage sampleTax (ps "4") chain4 h1 h2⟩

/-- C4 (amended): with two or more arguments, `lowest_common_ancestor` raises a
KeyError naming all the ids when any of them is absent; with exactly one argument
the id is returned without any presence check (so no error is raised then — see
the counterexample). -/
theorem C4_lca_unknown_error (t : Taxonomy PyVal) (ids : List PyVal)
    (h2 : 2 ≤ ids.length)
    (hbad : ids.all (fun i => t.tax_graph.hasNode i) = false) :
    t.lowest_common_ancestor ids =
      .error ("Tax IDs " ++ joinWith "," (ids.map toString) ++ " not in taxonomy") := by
  match ids, h2, hbad with
  | x :: y :: rest, _, hbad =>
    simp only [Taxonomy.lowest_common_ancestor, hbad, Bool.false_eq_true, if_false]

/-- C4 counterexample: the claim asserts an error for every k ≥ 1 with an unknown
id, but `lca` of the single unknown id `"zz"` returns `"zz"` with no error. -/
theorem C4_lca_unknown_counterexample :
    sampleTax.tax_graph.hasNode (ps "zz") = false ∧
    sampleTax.lowest_common_ancestor [ps "zz"] = .ok (some (ps "zz")) :=
  ⟨by decide, rfl⟩

/-- Witness for C4: `lca("4", "zz")` on the sample taxonomy raises the KeyError. -/
theorem C4_lca_unknown_error_witness :
    2 ≤ ([ps "4", ps "zz"] : List PyVal).length ∧
    ([ps "4", ps "zz"].all (fun i => sampleTax.tax_graph.hasNode i)) = false ∧
    sampleTax.lowest_common_ancestor [ps "4", ps "zz"] =
      .error ("Tax IDs " ++ joinWith "," ([ps "4", ps "zz"].map toString) ++
        " not in taxonomy") :=
  ⟨by decide, by decide, C4_lca_unknown_error sampleTax _ (by decide) (by decide)⟩

/-- C5: for a tax id present in the taxonomy with lineage chain `c`,
`parent_at_rank(x, r)` returns the first node of `c` (walking root-ward from `x`
itself) whose rank equals `r`, and `none` when no node on the lineage matches;
in particular `parent_at_rank(x, rank(x)) = x`. -/
theorem C5_parent_at_rank_first_match (t : Taxonomy PyVal) (x : PyVal) (r : String)
    (c : List PyVal) (hx : t.tax_graph.hasNode x = true)
    (hc : RootPath t.tax_graph x c) :
    t.parent_at_rank x r =
        .ok (c.find? (fun p => decide (t.tax_graph.getRank p = some r))) ∧
      (t.tax_graph.getRank x = some r → t.parent_at_rank x r = .ok (some x)) := by
  obtain ⟨c0, rfl⟩ := rootPath_cons hc
  refine ⟨?_, fun hr => by simp [Taxonomy.parent_at_rank, hr]⟩
  by_cases hr : t.tax_graph.getRank x = some r
  · rw [List.find?_cons_of_pos _ (by simp [hr])]
    simp [Taxonomy.parent_at_rank, hr]
  · have hp := parents_eq_tail t hx hc
    rw [show (x :: c0).tail = c0 from rfl] at hp
    rw [List.find?_cons_of_neg _ (by simp [hr])]
    simp [Taxonomy.parent_at_rank, hr, hp]

/-- Witness for C5: in the sample taxonomy, `parent_at_rank("4", "genus") = "3"`
(the first genus on the lineage) and `parent_at_rank("4", "species") = "4"`. -/
theorem C5_parent_at_rank_witness :
    sampleTax.tax_graph.hasNode (ps "4") = true ∧
    (sampleTax.parent_at_rank (ps "4") "genus" =
        .ok (chain4.find? (fun p => decide (sampleTax.tax_graph.getRank p = some "genus"))) ∧
      (sampleTax.tax_graph.getRank (ps "4") = some "genus" →
        sampleTax.parent_at_rank (ps "4") "genus" = .ok (some (ps "4")))) := by
  have h1 : sampleTax.tax_graph.hasNode (ps "4") = true := by decide
  have h2 : RootPath sampleTax.tax_graph (ps "4") chain4 :=
    RootPath.step _ _ _ (by decide)
      (RootPath.step _ _ _ (by decide)
        (RootPath.step _ _ _ (by decide)
          (RootPath.leaf _ (by decide))))
  exact ⟨h1, C5_parent_at_rank_first_match sampleTax (ps "4") "genus" chain4 h1 h2⟩

/-- C3: algebraic laws of the variadic `lowest_common_ancestor` on a single-rooted
taxonomy: `lca()` is none; `lca(x) = x`; `lca(root, x) = root`; the result is
invariant under swapping the two inputs (commutativity), and the pairwise
reduction `lowest_common_ancestor_double` regroups (associativity), for ids
present in the taxonomy with lineage chains ending at the root. -/
theorem C3_lca_algebra (t : Taxonomy PyVal) (root x y z : PyVal)
    (cx cy cz : List PyVal)
    (hr : t.tax_graph.hasNode root = true) (hrs : t.tax_graph.succs root = [])
    (hx : t.tax_graph.hasNode x = true) (hy : t.tax_graph.hasNode y = true)
    (hcx : RootPath t.tax_graph x cx) (hlx : cx.getLast? = some root)
    (hcy : RootPath t.tax_graph y cy) (hly : cy.getLast? = some root)
    (hcz : RootPath t.tax_graph z cz) (hlz : cz.getLast? = some root) :
    t.lowest_common_ancestor [] = .ok none ∧
    t.lowest_common_ancestor [x] = .ok (some x) ∧
    t.lowest_common_ancestor [root, x] = .ok (some root) ∧
    t.lowest_common_ancestor [x, y] = t.lowest_common_ancestor [y, x] ∧
    (t.lowest_common_ancestor_double x y).bind
        (fun w => t.lowest_common_ancestor_double w z) =
      (t.lowest_common_ancestor_double y z).bind
        (fun w => t.lowest_common_ancestor_double x w) := by
  refine ⟨rfl, rfl, ?_, ?_, lca_double_assoc t hcx hlx hcy hly hcz hlz⟩
  · have hall : ([root, x]).all (fun i => t.tax_graph.hasNode i) = true := by
      simp [hr, hx]
    simp only [Taxonomy.lowest_common_ancestor, hall, if_true, Taxonomy.lcaReduce]
    rw [lca_double_root t hrs hcx hlx]
  · have hall1 : ([x, y]).all (fun i => t.tax_graph.hasNode i) = true := by
      simp [hx, hy]
    have hall2 : ([y, x]).all (fun i => t.tax_graph.hasNode i) = true := by
      simp [hx, hy]
    simp only [Taxonomy.lowest_common_ancestor, hall1, hall2, if_true,
      Taxonomy.lcaReduce]
    rw [lca_double_comm]

/-- Witness for C3 on the sample taxonomy with root `"1"` and inputs
`"4"`, `"5"`, `"3"`. -/
theorem C3_lca_algebra_witness :
    sampleTax.tax_graph.hasNode (ps "1") = true ∧
    (sampleTax.lowest_common_ancestor [] = .ok none ∧
     sampleTax.lowest_common_ancestor [ps "4"] = .ok (some (ps "4")) ∧
     sampleTax.lowest_common_ancestor [ps "1", ps "4"] = .ok (some (ps "1")) ∧
     sampleTax.lowest_common_ancestor [ps "4", ps "5"] =
       sampleTax.lowest_common_ancestor [ps "5", ps "4"] ∧
     (sampleTax.lowest_common_ancestor_double (ps "4") (ps "5")).bind
         (fun w => sampleTax.lowest_common_ancestor_double w (ps "3")) =
       (sampleTax.lowest_common_ancestor_double (ps "5") (ps "3")).bind
         (fun w => sampleTax.lowest_common_ancestor_double (ps "4") w)) := by
  have h3 : RootPath sampleTax.tax_graph (ps "3") chain3 :=
    RootPath.step _ _ _ (by decide)
      (RootPath.step _ _ _ (by decide) (RootPath.leaf _ (by decide)))
  have h4 : RootPath sampleTax.tax_graph (ps "4") chain4 :=
    RootPath.step _ _ _ (by decide) h3
  have h5 : RootPath sampleTax.tax_graph (ps "5") chain5 :=
    RootPath.step _ _ _ (by decide)
      (RootPath.step _ _ _ (by decide) (RootPath.leaf _ (by decide)))
  exact ⟨by decide,
    C3_lca_algebra sampleTax (ps "1") (ps "4") (ps "5") (ps "3")
      chain4 chain5 chain3
      (by decide) (by decide) (by decide) (by decide)
      h4 (by decide) h5 (by decide) h3 (by decide)⟩

/-- C6 (divergence witness): the parser stores `hidden = bool(line[10].strip())`,
i.e. plain non-empty-string truthiness, so the root record of `ndRoot`, whose 11th
field is the string `"0"`, gets `hidden = true` — whereas the claim requires
`hidden = false` for the field `"0"` ("non-empty and not equal to \"0\""). -/
theorem C6_hidden_zero_divergence :
    (parseNodesLine? ndRoot).map (fun r => r.hidden_raw) = some "0" ∧
    getHiddenOfE (taxonomy_from_ncbi [nmHeader] [ndRoot]) (PyVal.pyStr "1") =
      some true :=
  ⟨rfl, rfl⟩

/-- C7 (amended): duplicate tax_ids in `nodes.dmp` are not detected:
`taxonomy_from_ncbi` returns a taxonomy (no error) on any input whose lines all
have enough fields, duplicates included — the later record merely overwrites the
node's attributes. -/
theorem C7_no_duplicate_error (ns nds : List String)
    (hn : ∀ l ∈ ns.drop 1, (parseNamesLine? l).isSome)
    (hd : ∀ l ∈ nds, (parseNodesLine? l).isSome) :
    ∃ t, taxonomy_from_ncbi ns nds = .ok t := by
  obtain ⟨d, hdd⟩ := namesFold_ok (ns.drop 1) hn []
  obtain ⟨g, hg⟩ := nodesFold_ok d nds hd DiGraph.empty
  refine ⟨⟨g⟩, ?_⟩
  unfold taxonomy_from_ncbi
  rw [show buildNamesDict (ns.drop 1) = .ok d from hdd]
  show (match nodesFold d (.ok DiGraph.empty) nds with
    | Except.error e => Except.error e
    | Except.ok g => Except.ok (⟨g⟩ : Taxonomy PyVal)) = Except.ok ⟨g⟩
  rw [hg]

/-- C7 counterexample: a `nodes.dmp` input whose parsed tax_ids are
`["1", "2", "2"]` (tax id 2 occurs twice) is parsed without error, contradicting
"the NCBI parser reports an error instead of returning a taxonomy". -/
theorem C7_duplicate_ok_counterexample :
    ([ndRoot, ndChild, ndChildDup].filterMap parseNodesLine?).map
        (fun r => r.tax_id) = ["1", "2", "2"] ∧
    isOkE (taxonomy_from_ncbi [nmHeader] [ndRoot, ndChild, ndChildDup]) = true :=
  ⟨rfl, rfl⟩

/-- Witness for C7 on the concrete duplicate input. -/
theorem C7_no_duplicate_error_witness :
    (∀ l ∈ ([nmHeader] : List String).drop 1, (parseNamesLine? l).isSome) ∧
    (∀ l ∈ [ndRoot, ndChild, ndChildDup], (parseNodesLine? l).isSome) ∧
    ∃ t, taxonomy_from_ncbi [nmHeader] [ndRoot, ndChild, ndChildDup] = .ok t :=
  ⟨by decide, by decide, C7_no_duplicate_error _ _ (by decide) (by decide)⟩

/-- C8 (amended): `formats.taxonomy_from_ncbi` stores every node id and every
edge endpoint as a Python string (so all accessors hand ids back as strings).
(The claim as stated is false of the also-cited legacy `Taxonomy.build_from_ncbi`,
which coerces ids with `int(...)` and stores integers; see the counterexample.) -/
theorem C8_ids_strings_formats (ns nds : List String) (t : Taxonomy PyVal)
    (ht : taxonomy_from_ncbi ns nds = .ok t) :
    allStrIds t.tax_graph = true := by
  obtain ⟨nd, g, _, hg, hT⟩ := taxonomy_from_ncbi_ok_elim ns nds t ht
  subst hT
  exact nodesFold_allStrIds nd nds DiGraph.empty rfl g hg

/-- C8 counterexample: the legacy parser `Taxonomy.build_from_ncbi` stores the
node id of the record `1 | 1 | …` as the integer `1`, not a string. -/
theorem C8_int_ids_counterexample :
    nodeIdsOfE (build_from_ncbi ["hdr"] [ndRoot]) = [PyVal.pyInt 1] ∧
    isPyStr (PyVal.pyInt 1) = false :=
  ⟨rfl, rfl⟩

/-- Witness for C8 on a concrete NCBI input. -/
theorem C8_ids_strings_formats_witness :
    taxonomy_from_ncbi [nmHeader, nmLine1, nmLine2] [ndRoot, ndChild] =
      .ok (taxOfE (taxonomy_from_ncbi [nmHeader, nmLine1, nmLine2] [ndRoot, ndChild])) ∧
    allStrIds (taxOfE (taxonomy_from_ncbi [nmHeader, nmLine1, nmLine2]
      [ndRoot, ndChild])).tax_graph = true :=
  ⟨rfl, C8_ids_strings_formats [nmHeader, nmLine1, nmLine2] [ndRoot, ndChild]
    (taxOfE (taxonomy_from_ncbi [nmHeader, nmLine1, nmLine2] [ndRoot, ndChild])) rfl⟩

/-- C9: `taxonomy_from_ncbi` discards the first `names.dmp` line unconditionally
(the parse result does not depend on its content), so a node whose tax id has no
scientific-name record among the *remaining* lines — including one whose only
such record sat on the discarded first line — is named `"No name found."`. -/
theorem C9_first_line_discarded_default_name (first alt : String)
    (rest nds : List String) (t : Taxonomy PyVal) (d : List (String × String))
    (tid : String)
    (ht : taxonomy_from_ncbi (first :: rest) nds = .ok t)
    (hd : buildNamesDict rest = .ok d)
    (hnotin : dictGet? d tid = none)
    (hocc : ∃ line ∈ nds, ∃ r : NodesRec, parseNodesLine? line = some r ∧
      r.tax_id = tid) :
    taxonomy_from_ncbi (first :: rest) nds = taxonomy_from_ncbi (alt :: rest) nds ∧
    t.tax_graph.getName (PyVal.pyStr tid) = some "No name found." := by
  refine ⟨rfl, ?_⟩
  obtain ⟨nd, g, hnd, hg, hT⟩ := taxonomy_from_ncbi_ok_elim (first :: rest) nds t ht
  subst hT
  have hnd2 : nd = d := by
    rw [show (first :: rest).drop 1 = rest from rfl, hd] at hnd
    injection hnd with h
    exact h.symm
  subst hnd2
  exact nodesFold_default_name nd tid hnotin nds DiGraph.empty (Or.inl hocc) g hg

/-- Witness for C9: the only scientific-name record for tax id 1 sits on the first
`names.dmp` line, which is discarded, so node 1 is named `"No name found."`. -/
theorem C9_first_line_discarded_witness :
    buildNamesDict [nmLine2] = .ok [("2", "Bacteria")] ∧
    dictGet? [("2", "Bacteria")] "1" = none ∧
    (taxonomy_from_ncbi [nmLine1, nmLine2] [ndRoot, ndChild] =
        taxonomy_from_ncbi ["discarded anyway", nmLine2] [ndRoot, ndChild] ∧
      (taxOfE (taxonomy_from_ncbi [nmLine1, nmLine2] [ndRoot, ndChild])).tax_graph.getName
        (PyVal.pyStr "1") = some "No name found.") :=
  ⟨rfl, rfl,
    C9_first_line_discarded_default_name nmLine1 "discarded anyway" [nmLine2]
      [ndRoot, ndChild]
      (taxOfE (taxonomy_from_ncbi [nmLine1, nmLine2] [ndRoot, ndChild]))
      [("2", "Bacteria")] "1" rfl rfl rfl
      ⟨ndRoot, by decide, ⟨"1", "1", "no rank", "0"⟩, rfl, rfl⟩⟩

/-- C10: for every taxonomy and every filepath whose `os.path.splitext` extension
is not `".gz"`, `Taxonomy.save` opens exactly one file, at path `f + ".gz"`
(never at `f` itself), writes gzip-compressed JSON to it, and the `compress`
argument has no effect on the outcome. -/
theorem C10_save_gz (t : Taxonomy PyVal) (f : String) (compress : Bool)
    (h : splitextExt f ≠ ".gz") :
    t.savePlan f compress = { path := f ++ ".gz", gzipped := true } ∧
    (t.savePlan f compress).path ≠ f ∧
    t.savePlan f true = t.savePlan f false := by
  have hplan : t.savePlan f compress = { path := f ++ ".gz", gzipped := true } := by
    simp [Taxonomy.savePlan, gzipModuleImported, h]
  refine ⟨hplan, ?_, ?_⟩
  · rw [hplan]
    intro hcontra
    have hlen : (f ++ ".gz").length = f.length :=
      congrArg String.length (by simpa using hcontra)
    rw [String.length_append] at hlen
    have h3 : (".gz" : String).length = 3 := rfl
    rw [h3] at hlen
    omega
  · simp [Taxonomy.savePlan, gzipModuleImported, h]

/-- Witness for C10 at the path `"out.json"`. -/
theorem C10_save_gz_witness :
    splitextExt "out.json" ≠ ".gz" ∧
    (sampleTax.savePlan "out.json" true =
        { path := "out.json" ++ ".gz", gzipped := true } ∧
      (sampleTax.savePlan "out.json" true).path ≠ "out.json" ∧
      sampleTax.savePlan "out.json" true = sampleTax.savePlan "out.json" false) :=
  ⟨by decide, C10_save_gz sampleTax "out.json" true (by decide)⟩
